import Mathlib

/-!
Verification of the cargo-switch registry and switching engine.

The Rust source (src/main.rs) is embedded shallowly:

* strings are `List Char`; `str::split_once` becomes `splitOnce`;
* the filesystem is an association list from absolute paths
  (lists of path components, each a `List Char`) to nodes
  (regular file, directory, or symlink carrying its target path);
* `Path::exists()` follows symlink chains, as the Rust method does
  (it reports `false` for dangling symlinks and resolution errors),
  modelled with the Linux symlink-resolution bound of 40;
* fallible filesystem primitives return `Option`;
* the external `cargo install` subprocess is an oracle parameter
  `Fs → Path → List Char → Fs × Bool` giving the filesystem it leaves
  behind and its exit status;
* `read_dir`-level fault injection for `list` is an oracle
  `Path → Option (List (Option Name))` where an entry `none` is a
  per-entry read error.
-/

/-! ## Spec parser: `Switcher::get_version_tag` -/

/-- Mirror of Rust `str::split_once(sep)`: split at the first occurrence
of `sep`, returning the parts before and after it. -/
def splitOnce (sep : Char) : List Char → Option (List Char × List Char)
  | [] => none
  | c :: cs =>
    if c = sep then some ([], cs)
    else (splitOnce sep cs).map (fun p => (c :: p.1, p.2))

/-- Mirror of `Switcher::get_version_tag`: split on the first `@`; the
result is kept when the name is non-empty and the version contains an
ASCII digit (`Char.isDigit` checks exactly the ASCII digits). -/
def get_version_tag (package : List Char) : Option (List Char × List Char) :=
  (splitOnce '@' package).bind (fun p =>
    if 1 ≤ p.1.length ∧ p.2.any Char.isDigit = true then some p else none)

/-! ## Filesystem model -/

/-- A path component (one file or directory name). -/
abbrev Name := List Char

/-- An absolute path, as its list of components. -/
abbrev FsPath := List Name

/-- A filesystem object: regular file, directory, or symbolic link
carrying its target path. -/
inductive Node where
  | file
  | dir
  | symlink (target : FsPath)
deriving DecidableEq

/-- The filesystem: a finite association list from paths to nodes.
The invariant `fsKeysNodup` says each path occurs at most once. -/
abbrev Fs := List (FsPath × Node)

def fsLookup : Fs → FsPath → Option Node
  | [], _ => none
  | (q, nd) :: rest, p => if q = p then some nd else fsLookup rest p

def fsKeysNodup (fs : Fs) : Prop := (fs.map Prod.fst).Nodup

instance (fs : Fs) : Decidable (fsKeysNodup fs) :=
  inferInstanceAs (Decidable ((fs.map Prod.fst).Nodup))

/-- Delete the entry at path `p` (used by `fs::remove_file`). -/
def fsErase (fs : Fs) (p : FsPath) : Fs :=
  fs.filter (fun e => decide (e.1 ≠ p))

/-- Symlink-following existence test with fuel, mirroring how the OS
resolves the final component; a loop or dangling link yields `false`,
as `Path::exists()` reports `false` on any resolution error. -/
def fsResolves (fs : Fs) : Nat → FsPath → Bool
  | 0, _ => false
  | fuel + 1, p =>
    match fsLookup fs p with
    | none => false
    | some (Node.symlink t) => fsResolves fs fuel t
    | some _ => true

/-- Mirror of `Path::exists()`: resolution bounded by the Linux
`SYMLOOP_MAX` of 40. -/
def pathExists (fs : Fs) (p : FsPath) : Bool := fsResolves fs 40 p

/-- Mirror of `fs::remove_file`: fails on a missing entry or on a
directory; removes a symlink itself, not its target. -/
def fsRemoveFile (fs : Fs) (p : FsPath) : Option Fs :=
  match fsLookup fs p with
  | none => none
  | some Node.dir => none
  | some _ => some (fsErase fs p)

/-- Mirror of `unix::fs::symlink`: fails with `EEXIST` when any object,
dangling symlink included, already sits at `linkPath`. -/
def fsSymlink (fs : Fs) (target linkPath : FsPath) : Option Fs :=
  match fsLookup fs linkPath with
  | some _ => none
  | none => some ((linkPath, Node.symlink target) :: fs)

/-- Mirror of `fs::create_dir` (non-recursive): fails when an object is
already at `p`. -/
def fsCreateDir (fs : Fs) (p : FsPath) : Option Fs :=
  match fsLookup fs p with
  | some _ => none
  | none => some ((p, Node.dir) :: fs)

/-- The immediate children names of directory `p`, in entry order. -/
def childName (p q : FsPath) : Option Name :=
  if q.dropLast = p then q.getLast? else none

def fsChildren (fs : Fs) (p : FsPath) : List Name :=
  fs.filterMap (fun e => childName p e.1)

/-- Mirror of `fs::read_dir`: succeeds on a directory, listing its
immediate children. -/
def fsReadDir (fs : Fs) (p : FsPath) : Option (List Name) :=
  match fsLookup fs p with
  | some Node.dir => some (fsChildren fs p)
  | _ => none

/-! ## Locator: `Switcher::get_cargo_bin` and `Switcher::new` -/

/-- Mirror of Rust `str::split(sep)`: all fields, empties included. -/
def splitSep (sep : Char) : List Char → List (List Char)
  | [] => [[]]
  | c :: cs =>
    let rest := splitSep sep cs
    if c = sep then [] :: rest
    else
      match rest with
      | [] => [[c]]
      | r :: rs => (c :: r) :: rs

/-- The marker segment identifying the personal cargo bin directory. -/
def markerSeg : List Char := ".cargo/bin".toList

/-- Mirror of `Switcher::get_cargo_bin`: split `PATH` on the separator
and take the first entry containing the marker segment. -/
def get_cargo_bin (pathVar : List Char) : Option (List Char) :=
  (splitSep ':' pathVar).find? (fun entry => decide (markerSeg <:+: entry))

/-- Path components of a path string, as `Path::components` yields them
(separators split the string; empty segments are dropped). -/
def toComponents (s : List Char) : FsPath :=
  (splitSep '/' s).filter (fun c => !c.isEmpty)

/-- Name of the registry directory nested in the cargo bin directory. -/
def registryName : Name := "cargo-switch-registry".toList

/-- Name of the `bin` subdirectory of a versioned install. -/
def binName : Name := "bin".toList

/-- Error taxonomy of the embedded program, one constructor per failure
path of the source. -/
inductive Err where
  | validation
  | cargoBinNotFound
  | cargoBinMissing
  | notInstalled (package : List Char)
  | binExpected (p : FsPath)
  | ioErr
  | panicked
deriving DecidableEq

/-- Messages the program prints that the claims talk about. -/
inductive Msg where
  | installOk (package : List Char)
  | installFailed (package : List Char)
  | pkgHeader (name : Name)
  | version (v : Name)
  | logErr
  | usageHint
deriving DecidableEq

def renderMsg : Msg → List Char
  | Msg.installOk p => "Successfully installed ".toList ++ p
  | Msg.installFailed p => "Failed to install ".toList ++ p
  | Msg.pkgHeader n => n ++ ":".toList
  | Msg.version v => "  - ".toList ++ v
  | Msg.logErr => "read error".toList
  | Msg.usageHint => "No command or package version specified. Use --help for more information.".toList

def renderErr : Err → List Char
  | Err.validation => "Expected input in the form NAME@VERSION".toList
  | Err.cargoBinNotFound => "Failed to find your .cargo/bin directory. Is Cargo configured in your PATH?".toList
  | Err.cargoBinMissing => ".cargo/bin directory in $PATH does not exist".toList
  | Err.notInstalled p => "Project ".toList ++ p ++ " is not installed!".toList
  | Err.binExpected p => "Expected ".toList ++ (List.intercalate "/".toList p) ++ " to exist".toList
  | Err.ioErr => "io error".toList
  | Err.panicked => "panicked".toList

/-- Mirror of `Switcher::new`: locate the cargo bin directory from
`PATH`, require it to exist, and create the registry directory when it
is absent (`create_dir` panics on failure, modelled as `panicked`). -/
def Switcher.new (fs : Fs) (pathVar : List Char) : Fs × Except Err FsPath :=
  match get_cargo_bin pathVar with
  | none => (fs, Except.error Err.cargoBinNotFound)
  | some binStr =>
    let cargoPath := toComponents binStr
    if pathExists fs cargoPath then
      let switchPath := cargoPath ++ [registryName]
      if pathExists fs switchPath then (fs, Except.ok switchPath)
      else
        match fsCreateDir fs switchPath with
        | none => (fs, Except.error Err.panicked)
        | some fs1 => (fs1, Except.ok switchPath)
    else (fs, Except.error Err.cargoBinMissing)

/-! ## Engine: `Switcher::switch_package` -/

/-- One iteration of the symlink loop of `switch_package`: remove the
object at the link path when `Path::exists()` reports it, then create
the symlink. -/
def switch_step (cargoBin projectBin : FsPath) (e : Name) (fs : Fs) : Fs × Option Err :=
  let symlinkPath := cargoBin ++ [e]
  let entryPath := projectBin ++ [e]
  match (if pathExists fs symlinkPath then fsRemoveFile fs symlinkPath else some fs) with
  | none => (fs, some Err.ioErr)
  | some fs1 =>
    match fsSymlink fs1 entryPath symlinkPath with
    | none => (fs1, some Err.ioErr)
    | some fs2 => (fs2, none)

def switch_loop (cargoBin projectBin : FsPath) : List Name → Fs → Fs × Option Err
  | [], fs => (fs, none)
  | e :: rest, fs =>
    match switch_step cargoBin projectBin e fs with
    | (fs1, none) => switch_loop cargoBin projectBin rest fs1
    | (fs1, some err) => (fs1, some err)

/-- Mirror of `Switcher::switch_package`. Note that, as in the source,
the second `ensure!` re-checks `switch_registry` (the versioned install
path), not `project_bin`, so its `binExpected` branch is dead code. -/
def switch_package (fs : Fs) (pathVar : List Char) (registry : FsPath)
    (package : List Char) : Fs × Option Err :=
  match get_version_tag package with
  | none => (fs, some Err.validation)
  | some (projectName, projectVersion) =>
    match get_cargo_bin pathVar with
    | none => (fs, some Err.cargoBinNotFound)
    | some binStr =>
      let cargoBin := toComponents binStr
      let switchRegistry := registry ++ [projectName, projectVersion]
      if pathExists fs switchRegistry then
        let projectBin := switchRegistry ++ [binName]
        if pathExists fs switchRegistry then
          match fsReadDir fs projectBin with
          | none => (fs, some Err.ioErr)
          | some entries => switch_loop cargoBin projectBin entries fs
        else (fs, some (Err.binExpected projectBin))
      else (fs, some (Err.notInstalled package))

/-! ## Engine: `Switcher::install_package`, `Switcher::list_packages`, `main` -/

/-- Result of one CLI invocation: final filesystem, the package
arguments of the spawned `cargo install` subprocesses, the printed
messages the claims mention, and the error if any. -/
structure RunResult where
  fs : Fs
  spawns : List (List Char)
  msgs : List Msg
  err : Option Err
deriving DecidableEq

/-- Mirror of `Switcher::install_package`. The external `cargo install`
subprocess is the oracle `cargo`, mapping the filesystem, the install
root and the package specifier to the filesystem it leaves behind and
its exit status. The failure notice does not abort: the switch follows
either way. -/
def install_package (cargo : Fs → FsPath → List Char → Fs × Bool)
    (fs : Fs) (pathVar : List Char) (registry : FsPath) (package : List Char) : RunResult :=
  match get_version_tag package with
  | none => ⟨fs, [], [], some Err.validation⟩
  | some (projectName, projectVersion) =>
    let targetPath := registry ++ [projectName, projectVersion]
    let res := cargo fs targetPath package
    let note := if res.2 then Msg.installOk package else Msg.installFailed package
    let sw := switch_package res.1 pathVar registry package
    ⟨sw.1, [package], [note], sw.2⟩

/-- The inner loop of `list_packages` over one package directory: a
per-entry error (`none`) aborts through the `?` operator after the
earlier versions printed. -/
def list_inner : List (Option Name) → List Msg × Bool
  | [] => ([], true)
  | none :: _ => ([], false)
  | some v :: rest =>
    let r := list_inner rest
    (Msg.version v :: r.1, r.2)

/-- The outer loop of `list_packages` over the registry root: a
per-entry error is logged and skipped; a failing inner `read_dir` or a
failing inner entry aborts. `O` is the directory-listing oracle, where
an entry `none` is a per-entry read error. -/
def list_outer (O : FsPath → Option (List (Option Name))) (registry : FsPath) :
    List (Option Name) → List Msg × Bool
  | [] => ([], true)
  | none :: rest =>
    let r := list_outer O registry rest
    (Msg.logErr :: r.1, r.2)
  | some name :: rest =>
    match O (registry ++ [name]) with
    | none => ([Msg.pkgHeader name], false)
    | some inner =>
      let ri := list_inner inner
      if ri.2 then
        let r := list_outer O registry rest
        (Msg.pkgHeader name :: ri.1 ++ r.1, r.2)
      else (Msg.pkgHeader name :: ri.1, false)

/-- Mirror of `Switcher::list_packages`, with the messages it printed
and whether it returned `Ok`. -/
def list_packages (O : FsPath → Option (List (Option Name))) (registry : FsPath) :
    List Msg × Bool :=
  match O registry with
  | none => ([], false)
  | some es => list_outer O registry es

/-- The parsed command line of `main`. -/
inductive Cli where
  | packageVersion (s : List Char)
  | installCmd (s : List Char)
  | listCmd
  | noCommand

/-- Mirror of `main`: construct the `Switcher` (which may create the
registry directory), then dispatch. The fault-free directory oracle
derived from the filesystem serves the `list` branch. -/
def runCli (cargo : Fs → FsPath → List Char → Fs × Bool)
    (fs : Fs) (pathVar : List Char) (cli : Cli) : RunResult :=
  match Switcher.new fs pathVar with
  | (fs0, Except.error e) => ⟨fs0, [], [], some e⟩
  | (fs0, Except.ok registry) =>
    match cli with
    | Cli.packageVersion pkg =>
      let sw := switch_package fs0 pathVar registry pkg
      ⟨sw.1, [], [], sw.2⟩
    | Cli.installCmd pkg => install_package cargo fs0 pathVar registry pkg
    | Cli.listCmd =>
      let r := list_packages (fun p => (fsReadDir fs0 p).map (fun l => l.map some)) registry
      ⟨fs0, [], r.1, if r.2 then none else some Err.ioErr⟩
    | Cli.noCommand => ⟨fs0, [], [Msg.usageHint], none⟩

/-! ## Concrete fixtures for witnesses and counterexamples -/

def exPathVar : List Char := "/u/.cargo/bin".toList

def exCargoBin : FsPath := toComponents exPathVar

def exRegistry : FsPath := exCargoBin ++ [registryName]

def pN : Name := "p".toList

def oneN : Name := "1".toList

def aN : Name := "a".toList

def qN : Name := "q".toList

def pkgP1 : List Char := "p@1".toList

def exProjectBin : FsPath := exRegistry ++ [pN, oneN] ++ [binName]

/-- Registry containing install directory `p/1` without a `bin`
subdirectory. -/
def fsC3 : Fs :=
  [(exCargoBin, Node.dir), (exRegistry, Node.dir),
   (exRegistry ++ [pN], Node.dir), (exRegistry ++ [pN, oneN], Node.dir)]

/-- A full install of `p@1` with one executable `a`, and a pre-existing
regular file at the executable name in the bin directory. -/
def fsC2 : Fs :=
  [(exCargoBin, Node.dir), (exRegistry, Node.dir),
   (exRegistry ++ [pN], Node.dir), (exRegistry ++ [pN, oneN], Node.dir),
   (exProjectBin, Node.dir), (exProjectBin ++ [aN], Node.file),
   (exCargoBin ++ [aN], Node.file)]

/-- Like `fsC2` but the object occupying the executable name is a
dangling symlink, which `Path::exists()` reports as absent. -/
def fsC2d : Fs :=
  [(exCargoBin, Node.dir), (exRegistry, Node.dir),
   (exRegistry ++ [pN], Node.dir), (exRegistry ++ [pN, oneN], Node.dir),
   (exProjectBin, Node.dir), (exProjectBin ++ [aN], Node.file),
   (exCargoBin ++ [aN], Node.symlink (exCargoBin ++ ["gone".toList]))]
/-- Subprocess oracle that leaves the filesystem alone and succeeds. -/
def cargoNoop : Fs → FsPath → List Char → Fs × Bool := fun fs _ _ => (fs, true)

/-- Subprocess oracle that leaves the filesystem alone and fails. -/
def cargoFail : Fs → FsPath → List Char → Fs × Bool := fun fs _ _ => (fs, false)

/-- A filesystem holding only the cargo bin directory: no registry root
yet. -/
def fsC4 : Fs := [(exCargoBin, Node.dir)]
/-- Listing oracle whose package `p` has a failing version-level entry
while package `q` is fine: used to exhibit the version-level abort. -/
def exListOracle : FsPath → Option (List (Option Name)) := fun p =>
  if p = ([] : FsPath) then some [some pN, some qN]
  else if p = [pN] then some [none]
  else if p = [qN] then some [some oneN]
  else none

/-- Listing oracle with one failing package-level entry and two readable
packages: used to witness the package-level skip. -/
def exListOracleOk : FsPath → Option (List (Option Name)) := fun p =>
  if p = ([] : FsPath) then some [some pN, none, some qN]
  else if p = [pN] then some [some oneN]
  else if p = [qN] then some []
  else none
/-! ## Theorems -/

theorem fsLookup_cons (e : FsPath × Node) (fs : Fs) (p : FsPath) :
    fsLookup (e :: fs) p = if e.1 = p then some e.2 else fsLookup fs p := by
  obtain ⟨q, nd⟩ := e
  rfl

theorem fsLookup_eq_none_iff (fs : Fs) (p : FsPath) :
    fsLookup fs p = none ↔ ∀ e ∈ fs, e.1 ≠ p := by
  induction fs with
  | nil => simp [fsLookup]
  | cons e rest ih =>
    rw [fsLookup_cons]
    by_cases he : e.1 = p
    · rw [if_pos he]
      exact iff_of_false (by simp) (fun hall => hall e (List.mem_cons_self _ _) he)
    · rw [if_neg he, ih]
      constructor
      · intro h x hx
        rcases List.mem_cons.mp hx with rfl | hx2
        · exact he
        · exact h x hx2
      · intro h x hx
        exact h x (List.mem_cons_of_mem _ hx)

theorem fsLookup_ne_none_of_mem {fs : Fs} {q : FsPath} {nd : Node} (h : (q, nd) ∈ fs) :
    fsLookup fs q ≠ none := by
  intro hn
  exact (fsLookup_eq_none_iff fs q).mp hn (q, nd) h rfl

theorem fsLookup_fsErase_ne (fs : Fs) (p q : FsPath) (h : q ≠ p) :
    fsLookup (fsErase fs p) q = fsLookup fs q := by
  induction fs with
  | nil => rfl
  | cons e rest ih =>
    rw [fsErase, List.filter_cons]
    by_cases he : e.1 = p
    · rw [if_neg (by simp [he])]
      have hstep : fsLookup (fsErase rest p) q = fsLookup rest q := ih
      rw [fsErase] at hstep
      rw [hstep, fsLookup_cons, if_neg (fun hq : e.1 = q => h (hq ▸ he))]
    · rw [if_pos (by simp [he])]
      rw [fsLookup_cons, fsLookup_cons]
      by_cases hq : e.1 = q
      · rw [if_pos hq, if_pos hq]
      · rw [if_neg hq, if_neg hq]
        have hstep : fsLookup (fsErase rest p) q = fsLookup rest q := ih
        rw [fsErase] at hstep
        exact hstep

theorem fsKeysNodup_fsErase {fs : Fs} (h : fsKeysNodup fs) (p : FsPath) :
    fsKeysNodup (fsErase fs p) := by
  unfold fsKeysNodup at h ⊢
  exact List.Nodup.sublist (List.Sublist.map Prod.fst (List.filter_sublist fs)) h

theorem fsKeysNodup_cons_fresh {fs : Fs} {p : FsPath} (nd : Node)
    (hfresh : fsLookup fs p = none) (h : fsKeysNodup fs) :
    fsKeysNodup ((p, nd) :: fs) := by
  unfold fsKeysNodup
  rw [List.map_cons, List.nodup_cons]
  refine ⟨?_, h⟩
  intro hmem
  obtain ⟨e, he, hfst⟩ := List.mem_map.mp hmem
  exact (fsLookup_eq_none_iff fs p).mp hfresh e he hfst

theorem dropLast_append_of_getLast? :
    ∀ (q : List Name) (a : Name), q.getLast? = some a → q.dropLast ++ [a] = q := by
  intro q
  induction q with
  | nil => intro a h; simp at h
  | cons x xs ih =>
    intro a h
    cases xs with
    | nil =>
      simp at h
      rw [h]
      rfl
    | cons y ys =>
      have h2 : (y :: ys).getLast? = some a := h
      have h3 := ih a h2
      calc (x :: y :: ys).dropLast ++ [a] = x :: ((y :: ys).dropLast ++ [a]) := rfl
        _ = x :: y :: ys := by rw [h3]

theorem childName_eq_some (p q : FsPath) (a : Name) :
    childName p q = some a ↔ q = p ++ [a] := by
  unfold childName
  by_cases h : q.dropLast = p
  · rw [if_pos h]
    constructor
    · intro hga
      rw [← dropLast_append_of_getLast? q a hga, h]
    · intro hq
      subst hq
      exact List.getLast?_concat _
  · rw [if_neg h]
    constructor
    · intro hh
      exact absurd hh (by simp)
    · intro hq
      exfalso
      apply h
      rw [hq, List.dropLast_concat]
  
theorem mem_fsChildren (fs : Fs) (p : FsPath) (a : Name) :
    a ∈ fsChildren fs p ↔ ∃ nd, (p ++ [a], nd) ∈ fs := by
  unfold fsChildren
  rw [List.mem_filterMap]
  constructor
  · rintro ⟨e, he, hc⟩
    obtain ⟨q, nd⟩ := e
    rw [childName_eq_some] at hc
    subst hc
    exact ⟨nd, he⟩
  · rintro ⟨nd, hmem⟩
    exact ⟨(p ++ [a], nd), hmem, (childName_eq_some p _ a).mpr rfl⟩

theorem fsChildren_nodup (fs : Fs) (p : FsPath) (h : fsKeysNodup fs) :
    (fsChildren fs p).Nodup := by
  induction fs with
  | nil => simp [fsChildren]
  | cons e rest ih =>
    unfold fsKeysNodup at h
    rw [List.map_cons, List.nodup_cons] at h
    obtain ⟨hnot, hrest⟩ := h
    unfold fsChildren
    cases hc : childName p e.1 with
    | none =>
      rw [List.filterMap_cons, hc]
      exact ih hrest
    | some a =>
      rw [List.filterMap_cons, hc]
      show (a :: fsChildren rest p).Nodup
      rw [List.nodup_cons]
      refine ⟨?_, ih hrest⟩
      intro hmem
      obtain ⟨nd, hnd⟩ := (mem_fsChildren rest p a).mp hmem
      rw [childName_eq_some] at hc
      apply hnot
      rw [hc]
      exact List.mem_map.mpr ⟨(p ++ [a], nd), hnd, rfl⟩

theorem pathExists_of_dir {fs : Fs} {p : FsPath} (h : fsLookup fs p = some Node.dir) :
    pathExists fs p = true := by
  show fsResolves fs (39 + 1) p = true
  simp [fsResolves, h]

theorem pathExists_of_file {fs : Fs} {p : FsPath} (h : fsLookup fs p = some Node.file) :
    pathExists fs p = true := by
  show fsResolves fs (39 + 1) p = true
  simp [fsResolves, h]

theorem pathExists_of_lookup_none {fs : Fs} {p : FsPath} (h : fsLookup fs p = none) :
    pathExists fs p = false := by
  show fsResolves fs (39 + 1) p = false
  simp [fsResolves, h]

theorem fsResolves_cons_fresh {fs : Fs} {q : FsPath} (nd : Node)
    (hq : fsLookup fs q = none) :
    ∀ fuel p, fsResolves fs fuel p = true → fsResolves ((q, nd) :: fs) fuel p = true := by
  intro fuel
  induction fuel with
  | zero =>
    intro p h
    simp [fsResolves] at h
  | succ fuel ih =>
    intro p h
    rw [fsResolves] at h ⊢
    cases hl : fsLookup fs p with
    | none =>
      rw [hl] at h
      simp at h
    | some ndp =>
      rw [hl] at h
      have hpq : q ≠ p := by
        intro hqp
        rw [hqp] at hq
        rw [hq] at hl
        exact absurd hl (by simp)
      rw [fsLookup_cons, if_neg hpq, hl]
      cases ndp with
      | symlink t => exact ih t h
      | file => rfl
      | dir => rfl

theorem pathExists_cons_fresh {fs : Fs} {q : FsPath} (nd : Node)
    (hq : fsLookup fs q = none) (p : FsPath) (h : pathExists fs p = true) :
    pathExists ((q, nd) :: fs) p = true :=
  fsResolves_cons_fresh nd hq 40 p h


theorem switch_step_ok (cargoBin projectBin : FsPath) (e : Name) (fs fs2 : Fs)
    (h : switch_step cargoBin projectBin e fs = (fs2, none)) :
    fsLookup fs2 (cargoBin ++ [e]) = some (Node.symlink (projectBin ++ [e])) ∧
    (∀ p, p ≠ cargoBin ++ [e] → fsLookup fs2 p = fsLookup fs p) ∧
    (fsKeysNodup fs → fsKeysNodup fs2) := by
  simp only [switch_step] at h
  split at h
  · exact absurd (congrArg Prod.snd h) (by simp)
  · rename_i fs1 hif
    split at h
    · exact absurd (congrArg Prod.snd h) (by simp)
    · rename_i fs2a hsl
      have h2 : fs2a = fs2 := congrArg Prod.fst h
      subst h2
      have hfs1 : (∀ p, p ≠ cargoBin ++ [e] → fsLookup fs1 p = fsLookup fs p) ∧
          (fsKeysNodup fs → fsKeysNodup fs1) := by
        by_cases hpe : pathExists fs (cargoBin ++ [e])
        · rw [if_pos hpe] at hif
          have heq : fs1 = fsErase fs (cargoBin ++ [e]) := by
            cases hlk2 : fsLookup fs (cargoBin ++ [e]) with
            | none => simp [fsRemoveFile, hlk2] at hif
            | some nd =>
              cases nd with
              | dir => simp [fsRemoveFile, hlk2] at hif
              | file =>
                simp [fsRemoveFile, hlk2] at hif
                exact hif.symm
              | symlink t =>
                simp [fsRemoveFile, hlk2] at hif
                exact hif.symm
          subst heq
          exact ⟨fun p hp => fsLookup_fsErase_ne fs _ p hp,
            fun hn => fsKeysNodup_fsErase hn _⟩
        · rw [if_neg hpe] at hif
          have heq : fs = fs1 := by
            simpa using hif
          subst heq
          exact ⟨fun _ _ => rfl, id⟩
      have hsym : fsLookup fs1 (cargoBin ++ [e]) = none ∧
          fs2a = (cargoBin ++ [e], Node.symlink (projectBin ++ [e])) :: fs1 := by
        cases hlk : fsLookup fs1 (cargoBin ++ [e]) with
        | some nd => simp [fsSymlink, hlk] at hsl
        | none =>
          simp [fsSymlink, hlk] at hsl
          exact ⟨rfl, hsl.symm⟩
      obtain ⟨hfresh, hcons⟩ := hsym
      subst hcons
      refine ⟨?_, ?_, ?_⟩
      · rw [fsLookup_cons, if_pos rfl]
      · intro p hp
        rw [fsLookup_cons, if_neg (fun hq : cargoBin ++ [e] = p => hp hq.symm)]
        exact hfs1.1 p hp
      · intro hn
        exact fsKeysNodup_cons_fresh _ hfresh (hfs1.2 hn)

theorem switch_loop_ok (cargoBin projectBin : FsPath) :
    ∀ (entries : List Name) (fs fs2 : Fs),
      entries.Nodup →
      switch_loop cargoBin projectBin entries fs = (fs2, none) →
      (∀ e ∈ entries, fsLookup fs2 (cargoBin ++ [e]) = some (Node.symlink (projectBin ++ [e]))) ∧
      (∀ p, (∀ e ∈ entries, p ≠ cargoBin ++ [e]) → fsLookup fs2 p = fsLookup fs p) ∧
      (fsKeysNodup fs → fsKeysNodup fs2) := by
  intro entries
  induction entries with
  | nil =>
    intro fs fs2 _ h
    have heq : fs = fs2 := congrArg Prod.fst h
    subst heq
    exact ⟨by simp, fun p _ => rfl, id⟩
  | cons e rest ih =>
    intro fs fs2 hnd h
    rw [List.nodup_cons] at hnd
    obtain ⟨hnotin, hndrest⟩ := hnd
    rw [switch_loop] at h
    cases hst : switch_step cargoBin projectBin e fs with
    | mk fs1 oe =>
      rw [hst] at h
      cases oe with
      | some err => simp at h
      | none =>
        have h2 : switch_loop cargoBin projectBin rest fs1 = (fs2, none) := h
        obtain ⟨hstep1, hstep2, hstep3⟩ := switch_step_ok cargoBin projectBin e fs fs1 hst
        obtain ⟨ih1, ih2, ih3⟩ := ih fs1 fs2 hndrest h2
        refine ⟨?_, ?_, fun hn => ih3 (hstep3 hn)⟩
        · intro x hx
          rcases List.mem_cons.mp hx with rfl | hx2
          · have hpres : fsLookup fs2 (cargoBin ++ [x]) = fsLookup fs1 (cargoBin ++ [x]) := by
              apply ih2
              intro y hy hxy
              have : x = y := by simpa using hxy
              exact hnotin (this ▸ hy)
            rw [hpres]
            exact hstep1
          · exact ih1 x hx2
        · intro p hp
          have hp1 : fsLookup fs2 p = fsLookup fs1 p := by
            apply ih2
            intro y hy
            exact hp y (List.mem_cons_of_mem _ hy)
          rw [hp1]
          exact hstep2 p (hp e (List.mem_cons_self _ _))

theorem splitOnce_eq_some_iff (sep : Char) :
    ∀ (s n v : List Char), splitOnce sep s = some (n, v) ↔ s = n ++ sep :: v ∧ sep ∉ n := by
  intro s
  induction s with
  | nil =>
    intro n v
    constructor
    · intro h; simp [splitOnce] at h
    · rintro ⟨h, -⟩; exact absurd h (by simp)
  | cons c cs ih =>
    intro n v
    by_cases hc : c = sep
    · subst hc
      rw [splitOnce, if_pos rfl]
      constructor
      · intro h
        obtain ⟨h1, h2⟩ := Prod.mk.injEq .. ▸ Option.some.injEq .. ▸ h
        subst h1; subst h2; simp
      · rintro ⟨heq, hmem⟩
        cases n with
        | nil => simp at heq; rw [heq]
        | cons a as =>
          exfalso
          have : c = a := (List.cons.injEq .. ▸ heq).1
          exact hmem (this ▸ List.mem_cons_self a as)
    · rw [splitOnce, if_neg hc]
      constructor
      · intro h
        obtain ⟨⟨a, b⟩, hab, hmk⟩ := Option.map_eq_some'.mp h
        obtain ⟨h1, h2⟩ := Prod.mk.injEq .. ▸ hmk
        obtain ⟨hs, hnm⟩ := (ih a b).mp hab
        subst h1; subst h2; subst hs
        refine ⟨rfl, ?_⟩
        intro hmem
        rcases List.mem_cons.mp hmem with h | h
        · exact hc h.symm
        · exact hnm h
      · rintro ⟨heq, hmem⟩
        cases n with
        | nil =>
          exfalso
          have : c = sep := (List.cons.injEq .. ▸ heq).1
          exact hc this
        | cons a as =>
          obtain ⟨h1, h2⟩ := List.cons.injEq .. ▸ heq
          subst h1
          have hsome : splitOnce sep cs = some (as, v) :=
            (ih as v).mpr ⟨h2, fun hm => hmem (List.mem_cons_of_mem _ hm)⟩
          rw [Option.map_eq_some']
          exact ⟨(as, v), hsome, rfl⟩

theorem splitOnce_eq_none_iff (sep : Char) :
    ∀ s : List Char, splitOnce sep s = none ↔ sep ∉ s := by
  intro s
  induction s with
  | nil => simp [splitOnce]
  | cons c cs ih =>
    by_cases hc : c = sep
    · subst hc
      simp [splitOnce]
    · rw [splitOnce, if_neg hc]
      simp only [Option.map_eq_none', List.mem_cons]
      rw [ih]
      constructor
      · intro h hmem
        rcases hmem with h' | h'
        · exact hc h'.symm
        · exact h h'
      · intro h hmem
        exact h (Or.inr hmem)

theorem get_version_tag_eq_some (package n v : List Char) :
    get_version_tag package = some (n, v) ↔
      package = n ++ '@' :: v ∧ '@' ∉ n ∧ n ≠ [] ∧ v.any Char.isDigit = true := by
  constructor
  · intro h
    unfold get_version_tag at h
    cases hs : splitOnce '@' package with
    | none => rw [hs] at h; simp at h
    | some p =>
      obtain ⟨a, b⟩ := p
      rw [hs] at h
      simp only [Option.some_bind] at h
      by_cases hg : 1 ≤ a.length ∧ b.any Char.isDigit = true
      · rw [if_pos hg] at h
        obtain ⟨hpkg, hnotin⟩ := (splitOnce_eq_some_iff '@' package a b).mp hs
        obtain ⟨h1, h2⟩ := Prod.mk.injEq .. ▸ Option.some.injEq .. ▸ h
        subst h1; subst h2
        refine ⟨hpkg, hnotin, ?_, hg.2⟩
        intro hnil
        rw [hnil] at hg
        simp at hg
      · rw [if_neg hg] at h
        simp at h
  · rintro ⟨heq, hni, hne, hdig⟩
    have hs : splitOnce '@' package = some (n, v) :=
      (splitOnce_eq_some_iff '@' package n v).mpr ⟨heq, hni⟩
    have hg : 1 ≤ (n, v).1.length ∧ (n, v).2.any Char.isDigit = true := by
      refine ⟨?_, hdig⟩
      cases n with
      | nil => exact absurd rfl hne
      | cons x xs => simp
    unfold get_version_tag
    rw [hs]
    simp only [Option.some_bind]
    rw [if_pos hg]

/-- C1: parse (`get_version_tag`) splits on the first `@` and succeeds
exactly when an `@` is present, the name before it is non-empty and the
version after it contains an ASCII digit, returning exactly that pair;
every string without `@` fails validation. -/
theorem parse_spec (s : List Char) :
    (∀ n v, get_version_tag s = some (n, v) ↔
        s = n ++ '@' :: v ∧ '@' ∉ n ∧ n ≠ [] ∧ v.any Char.isDigit = true) ∧
    ('@' ∉ s → get_version_tag s = none) := by
  refine ⟨fun n v => get_version_tag_eq_some s n v, fun hs => ?_⟩
  cases h : get_version_tag s with
  | none => rfl
  | some p =>
    obtain ⟨n, v⟩ := p
    obtain ⟨heq, -⟩ := (get_version_tag_eq_some s n v).mp h
    exact absurd (heq ▸ List.mem_append_right n (List.mem_cons_self _ _)) hs

/-- Witness for C1 at the concrete inputs used by the repository tests. -/
theorem parse_spec_witness :
    get_version_tag ("sqlx-cli@0.7.2".toList) = some ("sqlx-cli".toList, "0.7.2".toList) ∧
    get_version_tag ("zig@rc".toList) = none ∧
    get_version_tag ("no-at-sign".toList) = none :=
  ⟨((parse_spec _).1 _ _).mpr (by decide), by decide, (parse_spec _).2 (by decide)⟩

/-- C10: whenever `get_version_tag` succeeds with `(name, version)`, the
name contains no `@` and `name ++ "@" ++ version` is the input. -/
theorem parse_round_trip (s n v : List Char) (h : get_version_tag s = some (n, v)) :
    '@' ∉ n ∧ n ++ '@' :: v = s := by
  rw [get_version_tag_eq_some] at h
  exact ⟨h.2.1, h.1.symm⟩

/-- Witness for C10 at a concrete successfully parsed input. -/
theorem parse_round_trip_witness :
    '@' ∉ "zig".toList ∧ "zig".toList ++ '@' :: "1.0.0-rc0".toList = "zig@1.0.0-rc0".toList :=
  parse_round_trip _ _ _ (by decide)


/-- C2 (amended): on a successful switch, with the registry rooted in
the located cargo bin directory as `Switcher::new` builds it, every name
listed under the versioned install bin directory ends up as exactly one
symlink in the bin directory (the key set stays duplicate-free),
resolving to the corresponding install file, which itself is untouched;
every other path is untouched, so a pre-existing object at a listed name
is replaced, not duplicated. The removal step uses `Path::exists()`,
which follows symlinks, so a present object whose chain does not resolve
(a dangling symlink) is not removed and makes the switch fail instead
(see the counterexample). -/
theorem switch_success_spec (fs fs2 : Fs) (pathVar package binStr : List Char)
    (registry : FsPath) (projectName projectVersion : List Char)
    (hnd : fsKeysNodup fs)
    (hv : get_version_tag package = some (projectName, projectVersion))
    (hb : get_cargo_bin pathVar = some binStr)
    (hreg : registry = toComponents binStr ++ [registryName])
    (hok : switch_package fs pathVar registry package = (fs2, none)) :
    fsKeysNodup fs2 ∧
    (∀ e ∈ fsChildren fs (registry ++ [projectName, projectVersion] ++ [binName]),
      fsLookup fs2 (toComponents binStr ++ [e]) =
        some (Node.symlink (registry ++ [projectName, projectVersion] ++ [binName] ++ [e])) ∧
      fsLookup fs2 (registry ++ [projectName, projectVersion] ++ [binName] ++ [e]) =
        fsLookup fs (registry ++ [projectName, projectVersion] ++ [binName] ++ [e]) ∧
      fsLookup fs (registry ++ [projectName, projectVersion] ++ [binName] ++ [e]) ≠ none) ∧
    (∀ p, (∀ e ∈ fsChildren fs (registry ++ [projectName, projectVersion] ++ [binName]),
        p ≠ toComponents binStr ++ [e]) →
      fsLookup fs2 p = fsLookup fs p) := by
  simp only [switch_package, hv, hb] at hok
  by_cases hpe : pathExists fs (registry ++ [projectName, projectVersion]) = true
  · rw [if_pos hpe, if_pos hpe] at hok
    cases hrd : fsReadDir fs (registry ++ [projectName, projectVersion] ++ [binName]) with
    | none =>
      rw [hrd] at hok
      exact absurd (congrArg Prod.snd hok) (by simp)
    | some entries =>
      rw [hrd] at hok
      have hok2 : switch_loop (toComponents binStr)
          (registry ++ [projectName, projectVersion] ++ [binName]) entries fs = (fs2, none) := hok
      have hent : entries = fsChildren fs (registry ++ [projectName, projectVersion] ++ [binName]) := by
        rw [fsReadDir] at hrd
        cases hlk : fsLookup fs (registry ++ [projectName, projectVersion] ++ [binName]) with
        | none =>
          rw [hlk] at hrd
          simp at hrd
        | some nd =>
          rw [hlk] at hrd
          cases nd with
          | dir =>
            simp at hrd
            simpa using hrd.symm
          | file => simp at hrd
          | symlink t => simp at hrd
      subst hent
      obtain ⟨h1, h2, h3⟩ := switch_loop_ok (toComponents binStr)
        (registry ++ [projectName, projectVersion] ++ [binName])
        (fsChildren fs (registry ++ [projectName, projectVersion] ++ [binName])) fs fs2
        (fsChildren_nodup fs _ hnd) hok2
      refine ⟨h3 hnd, ?_, h2⟩
      intro e he
      refine ⟨h1 e he, ?_, ?_⟩
      · apply h2
        intro x hx hcon
        rw [hreg] at hcon
        have hlen := congrArg List.length hcon
        simp only [List.length_append, List.length_cons, List.length_nil] at hlen
        omega
      · obtain ⟨nd, hmem⟩ := (mem_fsChildren fs _ e).mp he
        exact fsLookup_ne_none_of_mem hmem
  · rw [if_neg hpe] at hok
    exact absurd (congrArg Prod.snd hok) (by simp)

/-- Witness for C2 at a concrete successful switch that replaces a
pre-existing regular file at the executable name. -/
theorem switch_success_spec_witness :
    fsKeysNodup fsC2 ∧
    (fsKeysNodup (switch_package fsC2 exPathVar exRegistry pkgP1).1 ∧
      (∀ e ∈ fsChildren fsC2 (exRegistry ++ [pN, oneN] ++ [binName]),
        fsLookup (switch_package fsC2 exPathVar exRegistry pkgP1).1 (toComponents exPathVar ++ [e]) =
          some (Node.symlink (exRegistry ++ [pN, oneN] ++ [binName] ++ [e])) ∧
        fsLookup (switch_package fsC2 exPathVar exRegistry pkgP1).1 (exRegistry ++ [pN, oneN] ++ [binName] ++ [e]) =
          fsLookup fsC2 (exRegistry ++ [pN, oneN] ++ [binName] ++ [e]) ∧
        fsLookup fsC2 (exRegistry ++ [pN, oneN] ++ [binName] ++ [e]) ≠ none) ∧
      (∀ p, (∀ e ∈ fsChildren fsC2 (exRegistry ++ [pN, oneN] ++ [binName]),
          p ≠ toComponents exPathVar ++ [e]) →
        fsLookup (switch_package fsC2 exPathVar exRegistry pkgP1).1 p = fsLookup fsC2 p)) :=
  ⟨by decide, switch_success_spec fsC2 (switch_package fsC2 exPathVar exRegistry pkgP1).1
    exPathVar pkgP1 exPathVar exRegistry pN oneN
    (by decide) (by decide) (by decide) rfl (by decide)⟩

/-- C2 counterexample: a dangling symlink occupies the executable name
in the bin directory; `Path::exists()` follows the chain and reports
false, so the code does not remove the object and the symlink creation
fails with the `EEXIST` I/O error, leaving the filesystem unchanged: the
claim that switch removes any already-present filesystem object at the
name before creating the new symlink is false on the code. -/
theorem switch_dangling_cex :
    fsLookup fsC2d (exCargoBin ++ [aN]) =
      some (Node.symlink (exCargoBin ++ ["gone".toList])) ∧
    aN ∈ fsChildren fsC2d exProjectBin ∧
    switch_package fsC2d exPathVar exRegistry pkgP1 = (fsC2d, some Err.ioErr) := by
  decide

/-- C3: with the versioned install directory present but its `bin`
subdirectory absent, the second `ensure!` of `switch_package` re-checks
the install path instead of the bin path, so it passes and the failure
surfaces as the raw `read_dir` I/O error rather than the dedicated
expected-bin-directory check, though still before any symlink operation
(the filesystem is returned unchanged). -/
theorem switch_missing_bin_io_error :
    pathExists fsC3 (exRegistry ++ [pN, oneN]) = true ∧
    fsLookup fsC3 (exRegistry ++ [pN, oneN] ++ [binName]) = none ∧
    switch_package fsC3 exPathVar exRegistry pkgP1 = (fsC3, some Err.ioErr) ∧
    switch_package fsC3 exPathVar exRegistry pkgP1 ≠
      (fsC3, some (Err.binExpected (exRegistry ++ [pN, oneN] ++ [binName]))) := by
  decide

/-- C6: a valid specifier whose versioned install path does not exist on
disk makes `switch_package` fail with the not-installed error naming the
package, creating no symlinks (the filesystem is returned unchanged). -/
theorem switch_not_installed_spec (fs : Fs) (pathVar package binStr : List Char)
    (registry : FsPath) (projectName projectVersion : List Char)
    (hv : get_version_tag package = some (projectName, projectVersion))
    (hb : get_cargo_bin pathVar = some binStr)
    (hni : pathExists fs (registry ++ [projectName, projectVersion]) = false) :
    switch_package fs pathVar registry package = (fs, some (Err.notInstalled package)) ∧
    package <:+: renderErr (Err.notInstalled package) := by
  constructor
  · simp only [switch_package, hv, hb]
    rw [if_neg (by rw [hni]; simp)]
  · exact ⟨"Project ".toList, " is not installed!".toList, rfl⟩

/-- Witness for C6 on the empty filesystem. -/
theorem switch_not_installed_spec_witness :
    get_version_tag pkgP1 = some (pN, oneN) ∧
    pathExists ([] : Fs) (exRegistry ++ [pN, oneN]) = false ∧
    (switch_package ([] : Fs) exPathVar exRegistry pkgP1 =
        (([] : Fs), some (Err.notInstalled pkgP1)) ∧
      pkgP1 <:+: renderErr (Err.notInstalled pkgP1)) :=
  ⟨by decide, by decide,
    switch_not_installed_spec [] exPathVar pkgP1 exPathVar exRegistry pN oneN
      (by decide) (by decide) (by decide)⟩


theorem Switcher_new_ok (fs : Fs) (pathVar binStr : List Char)
    (hb : get_cargo_bin pathVar = some binStr)
    (hex : pathExists fs (toComponents binStr) = true) :
    (fsLookup fs (toComponents binStr ++ [registryName]) = some Node.dir →
      Switcher.new fs pathVar = (fs, Except.ok (toComponents binStr ++ [registryName]))) ∧
    (fsLookup fs (toComponents binStr ++ [registryName]) = none →
      Switcher.new fs pathVar =
        ((toComponents binStr ++ [registryName], Node.dir) :: fs,
          Except.ok (toComponents binStr ++ [registryName]))) := by
  constructor
  · intro hdir
    simp only [Switcher.new, hb]
    rw [if_pos hex, if_pos (pathExists_of_dir hdir)]
  · intro hnone
    simp only [Switcher.new, hb]
    rw [if_pos hex, if_neg (by simp [pathExists_of_lookup_none hnone])]
    have hcd : fsCreateDir fs (toComponents binStr ++ [registryName]) =
        some ((toComponents binStr ++ [registryName], Node.dir) :: fs) := by
      rw [fsCreateDir, hnone]
    rw [hcd]

/-- C9: the registry-root step of the constructor is idempotent:
starting from an existing cargo bin directory whose registry path is
free or already holds the registry directory, the first call succeeds,
a second call on its result succeeds and changes nothing, and the
registry directory exists exactly once afterwards (the key set stays
duplicate-free); when it already existed the first call changes nothing
either. -/
theorem ensure_registry_idempotent (fs : Fs) (pathVar binStr : List Char)
    (hb : get_cargo_bin pathVar = some binStr)
    (hex : pathExists fs (toComponents binStr) = true)
    (hfree : fsLookup fs (toComponents binStr ++ [registryName]) = none ∨
      fsLookup fs (toComponents binStr ++ [registryName]) = some Node.dir)
    (hnd : fsKeysNodup fs) :
    ∃ fs1, Switcher.new fs pathVar = (fs1, Except.ok (toComponents binStr ++ [registryName])) ∧
      Switcher.new fs1 pathVar = (fs1, Except.ok (toComponents binStr ++ [registryName])) ∧
      fsLookup fs1 (toComponents binStr ++ [registryName]) = some Node.dir ∧
      fsKeysNodup fs1 ∧
      (pathExists fs (toComponents binStr ++ [registryName]) = true → fs1 = fs) := by
  obtain ⟨hfst, hsnd⟩ := Switcher_new_ok fs pathVar binStr hb hex
  rcases hfree with hnone | hdir
  · refine ⟨(toComponents binStr ++ [registryName], Node.dir) :: fs,
      hsnd hnone, ?_, ?_, ?_, ?_⟩
    · have hex1 : pathExists ((toComponents binStr ++ [registryName], Node.dir) :: fs)
          (toComponents binStr) = true :=
        pathExists_cons_fresh _ hnone _ hex
      have hlk1 : fsLookup ((toComponents binStr ++ [registryName], Node.dir) :: fs)
          (toComponents binStr ++ [registryName]) = some Node.dir := by
        rw [fsLookup_cons, if_pos rfl]
      exact (Switcher_new_ok _ pathVar binStr hb hex1).1 hlk1
    · rw [fsLookup_cons, if_pos rfl]
    · exact fsKeysNodup_cons_fresh _ hnone hnd
    · intro hpe
      rw [pathExists_of_lookup_none hnone] at hpe
      exact absurd hpe (by simp)
  · exact ⟨fs, hfst hdir, hfst hdir, hdir, hnd, fun _ => rfl⟩

/-- Witness for C9 on a filesystem holding only the cargo bin directory. -/
theorem ensure_registry_idempotent_witness :
    get_cargo_bin exPathVar = some exPathVar ∧
    pathExists [(exCargoBin, Node.dir)] exCargoBin = true ∧
    fsLookup [(exCargoBin, Node.dir)] (toComponents exPathVar ++ [registryName]) = none ∧
    (∃ fs1, Switcher.new [(exCargoBin, Node.dir)] exPathVar =
        (fs1, Except.ok (toComponents exPathVar ++ [registryName])) ∧
      Switcher.new fs1 exPathVar = (fs1, Except.ok (toComponents exPathVar ++ [registryName])) ∧
      fsLookup fs1 (toComponents exPathVar ++ [registryName]) = some Node.dir ∧
      fsKeysNodup fs1 ∧
      (pathExists [(exCargoBin, Node.dir)] (toComponents exPathVar ++ [registryName]) = true →
        fs1 = [(exCargoBin, Node.dir)])) :=
  ⟨by decide, by decide, by decide,
    ensure_registry_idempotent [(exCargoBin, Node.dir)] exPathVar exPathVar
      (by decide) (by decide) (Or.inl (by decide)) (by decide)⟩

theorem find?_first {α : Type} (p : α → Bool) :
    ∀ (l : List α) (a : α), l.find? p = some a →
      p a = true ∧ ∃ pre post, l = pre ++ a :: post ∧ ∀ x ∈ pre, p x = false := by
  intro l
  induction l with
  | nil =>
    intro a h
    simp at h
  | cons x xs ih =>
    intro a h
    cases hpx : p x with
    | true =>
      rw [List.find?_cons_of_pos _ hpx] at h
      injection h with h
      subst h
      exact ⟨hpx, [], xs, rfl, by simp⟩
    | false =>
      rw [List.find?_cons_of_neg _ (by simp [hpx])] at h
      obtain ⟨hpa, pre, post, heq, hall⟩ := ih a h
      refine ⟨hpa, x :: pre, post, by rw [heq, List.cons_append], ?_⟩
      intro y hy
      rcases List.mem_cons.mp hy with rfl | hy2
      · exact hpx
      · exact hall y hy2

/-- C8: `get_cargo_bin` splits the search-path string on the colon
separator and returns the first entry containing the `.cargo/bin` marker
segment; it fails when no entry matches, and `Switcher::new` then also
fails when the matched directory does not exist on disk. -/
theorem find_bin_directory_spec (pathVar : List Char) (fs : Fs) :
    (get_cargo_bin pathVar = none ↔
      ∀ e ∈ splitSep ':' pathVar, ¬ (markerSeg <:+: e)) ∧
    (∀ s, get_cargo_bin pathVar = some s →
      (markerSeg <:+: s) ∧
      ∃ pre post, splitSep ':' pathVar = pre ++ s :: post ∧
        ∀ e ∈ pre, ¬ (markerSeg <:+: e)) ∧
    (get_cargo_bin pathVar = none →
      Switcher.new fs pathVar = (fs, Except.error Err.cargoBinNotFound)) ∧
    (∀ s, get_cargo_bin pathVar = some s → pathExists fs (toComponents s) = false →
      Switcher.new fs pathVar = (fs, Except.error Err.cargoBinMissing)) := by
  refine ⟨?_, ?_, ?_, ?_⟩
  · unfold get_cargo_bin
    rw [List.find?_eq_none]
    constructor
    · intro h e he hin
      exact h e he (decide_eq_true hin)
    · intro h e he hd
      exact h e he (of_decide_eq_true hd)
  · intro s hs
    obtain ⟨hps, pre, post, heq, hall⟩ := find?_first _ _ s hs
    refine ⟨of_decide_eq_true hps, pre, post, heq, ?_⟩
    intro e he hin
    exact absurd (decide_eq_true hin) (by simp [hall e he])
  · intro h
    simp only [Switcher.new, h]
  · intro s hs hne
    simp only [Switcher.new, hs]
    rw [if_neg (by simp [hne])]

/-- Witness for C8 on a concrete two-entry search path and the empty
filesystem (where the matched directory does not exist). -/
theorem find_bin_directory_spec_witness :
    get_cargo_bin ("/usr/bin:/u/.cargo/bin".toList) = some ("/u/.cargo/bin".toList) ∧
    ((get_cargo_bin ("/usr/bin:/u/.cargo/bin".toList) = none ↔
      ∀ e ∈ splitSep ':' ("/usr/bin:/u/.cargo/bin".toList), ¬ (markerSeg <:+: e)) ∧
    (∀ s, get_cargo_bin ("/usr/bin:/u/.cargo/bin".toList) = some s →
      (markerSeg <:+: s) ∧
      ∃ pre post, splitSep ':' ("/usr/bin:/u/.cargo/bin".toList) = pre ++ s :: post ∧
        ∀ e ∈ pre, ¬ (markerSeg <:+: e)) ∧
    (get_cargo_bin ("/usr/bin:/u/.cargo/bin".toList) = none →
      Switcher.new ([] : Fs) ("/usr/bin:/u/.cargo/bin".toList) =
        (([] : Fs), Except.error Err.cargoBinNotFound)) ∧
    (∀ s, get_cargo_bin ("/usr/bin:/u/.cargo/bin".toList) = some s →
      pathExists ([] : Fs) (toComponents s) = false →
      Switcher.new ([] : Fs) ("/usr/bin:/u/.cargo/bin".toList) =
        (([] : Fs), Except.error Err.cargoBinMissing))) :=
  ⟨by decide, find_bin_directory_spec ("/usr/bin:/u/.cargo/bin".toList) []⟩


theorem runCli_invalid_switch (cargo : Fs → FsPath → List Char → Fs × Bool)
    (fs fs1 : Fs) (pathVar pkg : List Char) (rp : FsPath)
    (hnew : Switcher.new fs pathVar = (fs1, Except.ok rp))
    (hv : get_version_tag pkg = none) :
    runCli cargo fs pathVar (Cli.packageVersion pkg) = ⟨fs1, [], [], some Err.validation⟩ := by
  simp only [runCli, hnew, switch_package, hv]

theorem runCli_invalid_install (cargo : Fs → FsPath → List Char → Fs × Bool)
    (fs fs1 : Fs) (pathVar pkg : List Char) (rp : FsPath)
    (hnew : Switcher.new fs pathVar = (fs1, Except.ok rp))
    (hv : get_version_tag pkg = none) :
    runCli cargo fs pathVar (Cli.installCmd pkg) = ⟨fs1, [], [], some Err.validation⟩ := by
  simp only [runCli, hnew, install_package, hv]

/-- C4 (amended): an invocation of install or switch with an invalid
specifier spawns no subprocess, prints nothing, and surfaces the
validation error; but the constructor runs before validation and creates
the registry root when its path is free, so the only guarantee is: when
the registry root already exists the filesystem is left exactly as it
was, and otherwise the single mutation is that new empty registry
directory. -/
theorem invalid_spec_no_mutation (cargo : Fs → FsPath → List Char → Fs × Bool)
    (fs : Fs) (pathVar package binStr : List Char)
    (hv : get_version_tag package = none)
    (hb : get_cargo_bin pathVar = some binStr)
    (hex : pathExists fs (toComponents binStr) = true)
    (hfree : fsLookup fs (toComponents binStr ++ [registryName]) = none ∨
      fsLookup fs (toComponents binStr ++ [registryName]) = some Node.dir) :
    ∃ fs1, (fs1 = fs ∨ fs1 = (toComponents binStr ++ [registryName], Node.dir) :: fs) ∧
      (pathExists fs (toComponents binStr ++ [registryName]) = true → fs1 = fs) ∧
      runCli cargo fs pathVar (Cli.packageVersion package) =
        ⟨fs1, [], [], some Err.validation⟩ ∧
      runCli cargo fs pathVar (Cli.installCmd package) =
        ⟨fs1, [], [], some Err.validation⟩ := by
  obtain ⟨hfst, hsnd⟩ := Switcher_new_ok fs pathVar binStr hb hex
  rcases hfree with hnone | hdir
  · refine ⟨(toComponents binStr ++ [registryName], Node.dir) :: fs, Or.inr rfl, ?_, ?_, ?_⟩
    · intro hpe
      rw [pathExists_of_lookup_none hnone] at hpe
      exact absurd hpe (by simp)
    · exact runCli_invalid_switch cargo fs _ pathVar package _ (hsnd hnone) hv
    · exact runCli_invalid_install cargo fs _ pathVar package _ (hsnd hnone) hv
  · exact ⟨fs, Or.inl rfl, fun _ => rfl,
      runCli_invalid_switch cargo fs fs pathVar package _ (hfst hdir) hv,
      runCli_invalid_install cargo fs fs pathVar package _ (hfst hdir) hv⟩

/-- Witness for C4 on a filesystem whose registry root already exists:
the filesystem is returned exactly unchanged. -/
theorem invalid_spec_no_mutation_witness :
    get_version_tag ("bad".toList) = none ∧
    (∃ fs1, (fs1 = fsC3 ∨ fs1 = (toComponents exPathVar ++ [registryName], Node.dir) :: fsC3) ∧
      (pathExists fsC3 (toComponents exPathVar ++ [registryName]) = true → fs1 = fsC3) ∧
      runCli cargoNoop fsC3 exPathVar (Cli.packageVersion ("bad".toList)) =
        ⟨fs1, [], [], some Err.validation⟩ ∧
      runCli cargoNoop fsC3 exPathVar (Cli.installCmd ("bad".toList)) =
        ⟨fs1, [], [], some Err.validation⟩) :=
  ⟨by decide, invalid_spec_no_mutation cargoNoop fsC3 exPathVar ("bad".toList) exPathVar
    (by decide) (by decide) (by decide) (Or.inr (by decide))⟩

/-- C4 counterexample: on a filesystem where the registry root does not
yet exist, an invocation with an invalid specifier still creates the
registry root directory in the constructor before validation fails, so
the filesystem is not left exactly as it was. -/
theorem invalid_spec_mutation_cex :
    get_version_tag ("bad".toList) = none ∧
    fsLookup fsC4 exRegistry = none ∧
    (runCli cargoNoop fsC4 exPathVar (Cli.packageVersion ("bad".toList))).err =
      some Err.validation ∧
    (runCli cargoNoop fsC4 exPathVar (Cli.packageVersion ("bad".toList))).spawns = [] ∧
    (runCli cargoNoop fsC4 exPathVar (Cli.packageVersion ("bad".toList))).fs ≠ fsC4 ∧
    fsLookup (runCli cargoNoop fsC4 exPathVar (Cli.packageVersion ("bad".toList))).fs
      exRegistry = some Node.dir := by
  decide

/-- C5: with a valid specifier, install spawns the subprocess once for
that specifier, and regardless of the exit status its final filesystem
and error are those of the switch invoked on the same specifier right
after; when the subprocess fails, the printed notice is the failure
message carrying the package specifier as a suffix, and the run is not
aborted (the switch outcome still determines the result). -/
theorem install_failure_spec (cargo : Fs → FsPath → List Char → Fs × Bool)
    (fs : Fs) (pathVar : List Char) (registry : FsPath)
    (package projectName projectVersion : List Char)
    (hv : get_version_tag package = some (projectName, projectVersion)) :
    (install_package cargo fs pathVar registry package).spawns = [package] ∧
    (install_package cargo fs pathVar registry package).fs =
      (switch_package (cargo fs (registry ++ [projectName, projectVersion]) package).1
        pathVar registry package).1 ∧
    (install_package cargo fs pathVar registry package).err =
      (switch_package (cargo fs (registry ++ [projectName, projectVersion]) package).1
        pathVar registry package).2 ∧
    ((cargo fs (registry ++ [projectName, projectVersion]) package).2 = false →
      (install_package cargo fs pathVar registry package).msgs =
        [Msg.installFailed package] ∧
      renderMsg (Msg.installFailed package) = "Failed to install ".toList ++ package ∧
      package <:+ renderMsg (Msg.installFailed package)) := by
  simp only [install_package, hv]
  refine ⟨trivial, trivial, trivial, fun hfail => ⟨?_, rfl, ⟨"Failed to install ".toList, rfl⟩⟩⟩
  simp [hfail]

/-- Witness for C5 with a failing subprocess oracle on the empty
filesystem. -/
theorem install_failure_spec_witness :
    get_version_tag pkgP1 = some (pN, oneN) ∧
    (install_package cargoFail [] exPathVar exRegistry pkgP1).msgs =
      [Msg.installFailed pkgP1] ∧
    ((install_package cargoFail [] exPathVar exRegistry pkgP1).spawns = [pkgP1] ∧
      (install_package cargoFail [] exPathVar exRegistry pkgP1).fs =
        (switch_package (cargoFail [] (exRegistry ++ [pN, oneN]) pkgP1).1
          exPathVar exRegistry pkgP1).1 ∧
      (install_package cargoFail [] exPathVar exRegistry pkgP1).err =
        (switch_package (cargoFail [] (exRegistry ++ [pN, oneN]) pkgP1).1
          exPathVar exRegistry pkgP1).2 ∧
      ((cargoFail [] (exRegistry ++ [pN, oneN]) pkgP1).2 = false →
        (install_package cargoFail [] exPathVar exRegistry pkgP1).msgs =
          [Msg.installFailed pkgP1] ∧
        renderMsg (Msg.installFailed pkgP1) = "Failed to install ".toList ++ pkgP1 ∧
        pkgP1 <:+ renderMsg (Msg.installFailed pkgP1))) :=
  ⟨by decide, by decide,
    install_failure_spec cargoFail [] exPathVar exRegistry pkgP1 pN oneN (by decide)⟩


theorem list_inner_all_some :
    ∀ vs : List Name, list_inner (vs.map some) = (vs.map Msg.version, true) := by
  intro vs
  induction vs with
  | nil => rfl
  | cons v rest ih => simp [list_inner, ih]

/-- C7 (amended): during list, a read error on a package-level entry of
the registry root is logged and skipped and enumeration continues, so
with all version-level listings readable the run succeeds, reports every
readable package, and logs exactly one error per failing package-level
entry; a version-level entry error, by contrast, aborts the listing (see
the counterexample). -/
theorem list_partial_spec (O : FsPath → Option (List (Option Name))) (registry : FsPath)
    (es : List (Option Name))
    (h0 : O registry = some es)
    (hin : ∀ n, some n ∈ es → ∃ vs : List Name, O (registry ++ [n]) = some (vs.map some)) :
    (list_packages O registry).2 = true ∧
    (∀ n, some n ∈ es → Msg.pkgHeader n ∈ (list_packages O registry).1) ∧
    (list_packages O registry).1.countP (fun m => decide (m = Msg.logErr)) =
      es.countP (fun e => e.isNone) := by
  have hlp : list_packages O registry = list_outer O registry es := by
    simp only [list_packages, h0]
  rw [hlp]
  clear h0 hlp
  induction es with
  | nil => exact ⟨rfl, by simp, rfl⟩
  | cons e rest ih =>
    have hinr : ∀ n, some n ∈ rest →
        ∃ vs : List Name, O (registry ++ [n]) = some (vs.map some) :=
      fun n hn => hin n (List.mem_cons_of_mem _ hn)
    obtain ⟨ih1, ih2, ih3⟩ := ih hinr
    cases e with
    | none =>
      simp only [list_outer]
      refine ⟨ih1, ?_, ?_⟩
      · intro n hn
        rcases List.mem_cons.mp hn with hcon | hn2
        · exact absurd hcon (by simp)
        · exact List.mem_cons_of_mem _ (ih2 n hn2)
      · simp [List.countP_cons, ih3]
    | some name =>
      obtain ⟨vs, hvs⟩ := hin name (List.mem_cons_self _ _)
      simp only [list_outer, hvs, list_inner_all_some]
      have hvz : (vs.map Msg.version).countP (fun m => decide (m = Msg.logErr)) = 0 := by
        rw [List.countP_eq_zero]
        intro m hm
        obtain ⟨v, hv, rfl⟩ := List.mem_map.mp hm
        simp
      refine ⟨ih1, ?_, ?_⟩
      · intro n hn
        rcases List.mem_cons.mp hn with hcon | hn2
        · have hn3 : n = name := by simpa using hcon
          subst hn3
          exact List.mem_cons_self _ _
        · exact List.mem_cons_of_mem _ (List.mem_append_right _ (ih2 n hn2))
      · simp [List.countP_cons, List.countP_append, ih3, hvz]

/-- Witness for C7 with a failing package-level entry between two
readable packages: both packages are reported, the run succeeds, and
exactly one error is logged. -/
theorem list_partial_spec_witness :
    exListOracleOk [] = some [some pN, none, some qN] ∧
    ((list_packages exListOracleOk []).2 = true ∧
      (∀ n, some n ∈ ([some pN, none, some qN] : List (Option Name)) →
        Msg.pkgHeader n ∈ (list_packages exListOracleOk []).1) ∧
      (list_packages exListOracleOk []).1.countP (fun m => decide (m = Msg.logErr)) =
        ([some pN, none, some qN] : List (Option Name)).countP (fun e => e.isNone)) :=
  ⟨by decide,
    list_partial_spec exListOracleOk [] [some pN, none, some qN] (by decide) (by
      intro n hn
      simp at hn
      rcases hn with rfl | rfl
      · exact ⟨[oneN], by decide⟩
      · exact ⟨[], by decide⟩)⟩

/-- C7 counterexample: a read error on a version-level entry under
package `p` aborts the whole listing through the `?` operator instead of
being logged and skipped: the subsequent package `q` is never reported
and the run fails. -/
theorem list_version_error_aborts_cex :
    exListOracle [] = some [some pN, some qN] ∧
    list_packages exListOracle [] = ([Msg.pkgHeader pN], false) ∧
    Msg.pkgHeader qN ∉ (list_packages exListOracle []).1 := by
  decide
